import Mathlib

/-!
Verification of the detection post-processing core of the `mqtt-msg`
repository: the ONNX graph-augmentation script
(`examples/inject_postprocess.py`) and the host-side decode script
(`examples/self_valid.py`).  Machine floats are modelled as rationals,
`numpy`/ONNX round-to-nearest-ties-to-even as `roundHalfEven`, Python
`int()` truncation as `ratTrunc`, and rank-3 tensors as nested lists.
-/

namespace Detect

/-- Round half to even (the rounding used by Python `round`, `np.rint`
and the ONNX `Round` operator). -/
def roundHalfEven (q : ℚ) : ℤ :=
  let f : ℤ := ⌊q⌋
  let r : ℚ := q - (f : ℚ)
  if r < 1/2 then f
  else if (1 : ℚ)/2 < r then f + 1
  else if f % 2 = 0 then f else f + 1

/-- Truncation toward zero, the behaviour of Python `int()` on a float. -/
def ratTrunc (q : ℚ) : ℤ := if q < 0 then -⌊-q⌋ else ⌊q⌋

/-- Letterbox metadata: uniform scale and integer padding, plus the
original image size, as computed in `self_valid.py` lines 11-14 and
consumed read-only by the un-letterbox step (lines 50-53). -/
structure Letterbox where
  scale : ℚ
  padX : ℚ
  padY : ℚ
  origW : ℚ
  origH : ℚ
deriving DecidableEq

/-- Result of the letterbox parameter computation
(`r`, `nw`, `nh`, `padx`, `pady` in `self_valid.py` lines 12-14). -/
structure LetterboxParams where
  r : ℚ
  nw : ℤ
  nh : ℤ
  padx : ℤ
  pady : ℤ
deriving DecidableEq

/-- The letterbox parameter computation of `self_valid.py` lines 12-14:
`r = min(imgsz/w0, imgsz/h0)`, `nw, nh = int(round(w0*r)), int(round(h0*r))`,
`padx, pady = (imgsz-nw)//2, (imgsz-nh)//2` (Python floor division). -/
def letterboxCompute (w0 h0 imgsz : ℤ) : LetterboxParams :=
  let r : ℚ := min ((imgsz : ℚ) / (w0 : ℚ)) ((imgsz : ℚ) / (h0 : ℚ))
  let nw : ℤ := roundHalfEven ((w0 : ℚ) * r)
  let nh : ℤ := roundHalfEven ((h0 : ℚ) * r)
  { r := r, nw := nw, nh := nh,
    padx := Int.fdiv (imgsz - nw) 2, pady := Int.fdiv (imgsz - nh) 2 }

/-- Forward letterbox map on an x coordinate: pixel `x` of the original
image lands at `x * r + padx` on the inference canvas (the geometry of
the resize-and-paste in `self_valid.py` lines 15-17). -/
def to_inference_x (t : Letterbox) (x : ℚ) : ℚ := x * t.scale + t.padX

/-- Forward letterbox map on a y coordinate. -/
def to_inference_y (t : Letterbox) (y : ℚ) : ℚ := y * t.scale + t.padY

/-- Inverse letterbox map on an x coordinate, exactly as in
`self_valid.py` lines 50-53: subtract the pad, divide by the scale and
clip into `[0, w0-1]`. -/
def to_original_x (t : Letterbox) (q : ℚ) : ℚ :=
  min (max ((q - t.padX) / t.scale) 0) (t.origW - 1)

/-- Inverse letterbox map on a y coordinate (clip into `[0, h0-1]`). -/
def to_original_y (t : Letterbox) (q : ℚ) : ℚ :=
  min (max ((q - t.padY) / t.scale) 0) (t.origH - 1)

/-- C8: the letterbox computation on `orig_w = 1920`, `orig_h = 1080`,
`target = 1280` yields `scale = 2/3`, `new_w = 1280`, `new_h = 720`,
`pad_x = 0` and `pad_y = 280`. -/
theorem letterbox_1920_1080_1280 :
    letterboxCompute 1920 1080 1280 =
      { r := 2/3, nw := 1280, nh := 720, padx := 0, pady := 280 } := by
  have hr : min ((1280:ℚ)/1920) ((1280:ℚ)/1080) = 2/3 := by norm_num
  simp only [letterboxCompute, Int.cast_ofNat, hr]
  norm_num [roundHalfEven]
  decide

/-- C4: for a letterbox transform with positive scale and a point inside
the original image bounds, mapping to inference space and back (with the
final clip) recovers the point to within one pixel in each coordinate
(in exact arithmetic the round trip is exact, hence certainly within 1). -/
theorem letterbox_roundtrip (t : Letterbox) (hs : 0 < t.scale) (px py : ℚ)
    (hx0 : 0 ≤ px) (hx1 : px ≤ t.origW - 1)
    (hy0 : 0 ≤ py) (hy1 : py ≤ t.origH - 1) :
    |to_original_x t (to_inference_x t px) - px| ≤ 1 ∧
    |to_original_y t (to_inference_y t py) - py| ≤ 1 := by
  have hsne : t.scale ≠ 0 := ne_of_gt hs
  have ex : to_original_x t (to_inference_x t px) = px := by
    unfold to_original_x to_inference_x
    rw [add_sub_cancel_right, mul_div_assoc, div_self hsne, mul_one,
      max_eq_left hx0, min_eq_left hx1]
  have ey : to_original_y t (to_inference_y t py) = py := by
    unfold to_original_y to_inference_y
    rw [add_sub_cancel_right, mul_div_assoc, div_self hsne, mul_one,
      max_eq_left hy0, min_eq_left hy1]
  refine ⟨?_, ?_⟩
  · rw [ex, sub_self, abs_zero]; exact zero_le_one
  · rw [ey, sub_self, abs_zero]; exact zero_le_one

/-- Example letterbox transform (the 1920 x 1080 to 1280 scenario). -/
def lbEx : Letterbox := { scale := 2/3, padX := 0, padY := 280, origW := 1920, origH := 1080 }

/-- Witness for C4 at the concrete transform `lbEx` and point (100, 50). -/
theorem letterbox_roundtrip_witness :
    |to_original_x lbEx (to_inference_x lbEx 100) - 100| ≤ 1 ∧
    |to_original_y lbEx (to_inference_y lbEx 50) - 50| ≤ 1 :=
  letterbox_roundtrip lbEx (by norm_num [lbEx]) 100 50 (by norm_num)
    (by norm_num [lbEx]) (by norm_num) (by norm_num [lbEx])

/-- Rank-3 float tensor, embedded as nested lists of rationals
(axis 0 outermost). -/
abbrev Tensor3 := List (List (List ℚ))

/-- ONNX `Transpose` with `perm = [0, 2, 1]` (the node `t1` inserted by
`inject_postprocess.py`): swap the last two axes. -/
def transpose021 (t : Tensor3) : Tensor3 := t.map List.transpose

/-- ONNX `Slice` on one axis with step 1 and non-negative bounds:
keep indices in `[s, e)`, clamping to the axis length. -/
def sliceAxis (s e : ℕ) (l : List α) : List α := (l.take e).drop s

/-- ONNX `Slice` on a rank-3 tensor with `axes = [0,1,2]`, unit steps and
non-negative starts, as configured by the initializers that
`make_slice_col` creates. -/
def onnxSlice3 (s0 e0 s1 e1 s2 e2 : ℕ) (t : Tensor3) : Tensor3 :=
  (sliceAxis s0 e0 t).map fun m => (sliceAxis s1 e1 m).map (sliceAxis s2 e2)

/-- The INT64 maximum used as the axis-2 `ends` entry in
`make_slice_col`. -/
def int64Max : ℕ := 9223372036854775807

/-- The slice node built by `make_slice_col` in `inject_postprocess.py`:
`starts = [0, start, 0]`, `ends = [1, stop, int64Max]`, `axes = [0,1,2]`,
`steps = [1,1,1]`.  Note that the `[start, stop)` window lands on axis 1. -/
def make_slice_col (start stop : ℕ) (t : Tensor3) : Tensor3 :=
  onnxSlice3 0 1 start stop 0 int64Max t

/-- Elementwise binary operator on rank-3 tensors of equal shape
(ONNX `Mul` / `Max` at the shapes produced here). -/
def zipWith3 (f : ℚ → ℚ → ℚ) (a b : Tensor3) : Tensor3 :=
  List.zipWith (List.zipWith (List.zipWith f)) a b

/-- ONNX `Round`: elementwise round half to even. -/
def roundNode (t : Tensor3) : Tensor3 :=
  t.map (List.map (List.map fun q => ((roundHalfEven q : ℤ) : ℚ)))

/-- ONNX `Concat` with `axis = 2` on two equal-leading-shape tensors. -/
def catAxis2 (a b : Tensor3) : Tensor3 :=
  List.zipWith (List.zipWith (· ++ ·)) a b

/-- The whole subgraph appended by `main` in `inject_postprocess.py`:
Transpose, the seven `make_slice_col` nodes, `Mul`, `Max`, `Round`, and
the six-input `Concat` with `axis = 2` producing `post_dets`. -/
def graph_post_dets (raw : Tensor3) : Tensor3 :=
  let n7 := transpose021 raw
  let c_x1 := make_slice_col 0 1 n7
  let c_y1 := make_slice_col 1 2 n7
  let c_x2 := make_slice_col 2 3 n7
  let c_y2 := make_slice_col 3 4 n7
  let c_f4 := make_slice_col 4 5 n7
  let c_f5 := make_slice_col 5 6 n7
  let c_f6 := make_slice_col 6 7 n7
  let scoreA := zipWith3 (· * ·) c_f4 c_f6
  let score := zipWith3 max scoreA c_f4
  let cls_id := roundNode c_f5
  catAxis2 c_x1 (catAxis2 c_y1 (catAxis2 c_x2 (catAxis2 c_y2 (catAxis2 score cls_id))))

/-- Host-side canonical row for one candidate, from `self_valid.py`
lines 32-38: keep the four box coordinates, fuse the score as
`max(f4*f6, f4)` and round the class id with `np.rint`. -/
def hostRow (r : List ℚ) : List ℚ :=
  [r.getD 0 0, r.getD 1 0, r.getD 2 0, r.getD 3 0,
    max (r.getD 4 0 * r.getD 6 0) (r.getD 4 0),
    ((roundHalfEven (r.getD 5 0) : ℤ) : ℚ)]

/-- Host-side decode of a raw `[1,7,N]` tensor into the canonical
`[1,N,6]` layout: transpose to rows of 7 (line 28) and fuse each row. -/
def hostCanonical (raw : Tensor3) : Tensor3 :=
  raw.map fun m => (List.transpose m).map hostRow

/-- Leading dimensions of a rank-3 tensor (measured on the first slice). -/
def shape3 (t : Tensor3) : List ℕ :=
  [t.length, (t.headD []).length, ((t.headD []).headD []).length]

/-- Concrete raw detection tensor of shape `[1,7,7]` (N = 7 candidates);
channel `c`, candidate `n` holds the value `10*c + n`. -/
def testRaw : Tensor3 :=
  [[[0, 1, 2, 3, 4, 5, 6],
    [10, 11, 12, 13, 14, 15, 16],
    [20, 21, 22, 23, 24, 25, 26],
    [30, 31, 32, 33, 34, 35, 36],
    [40, 41, 42, 43, 44, 45, 46],
    [50, 51, 52, 53, 54, 55, 56],
    [60, 61, 62, 63, 64, 65, 66]]]

/-- C2 (refuting the claim): on the transposed `[1,N,7]` tensor with
`N = 7`, the slice node for column 4 produces shape `[1,1,7]` — one
candidate row with all seven channels — not the claimed `[1,N,1]`
channel column. -/
theorem slice_col_wrong_axis :
    shape3 (make_slice_col 4 5 (transpose021 testRaw)) = [1, 1, 7] ∧
    ([1, 1, 7] : List ℕ) ≠ [1, 7, 1] := ⟨rfl, by decide⟩

/-- C3 (refuting the claim): the appended subgraph maps the `[1,7,7]`
raw tensor to a `[1,1,42]` tensor, while the canonical contract (and the
host decoder) calls for `[1,7,6]`. -/
theorem graph_output_shape_wrong :
    shape3 (graph_post_dets testRaw) = [1, 1, 42] ∧
    shape3 (hostCanonical testRaw) = [1, 7, 6] ∧
    ([1, 1, 42] : List ℕ) ≠ [1, 7, 6] := ⟨rfl, rfl, by decide⟩

/-- C1 (refuting the claim): on the same underlying raw values the host
decoder produces seven canonical candidate rows while the augmented
graph produces a single 42-wide row, so the two decode paths do not agree
(they do not even yield the same number of candidates). -/
theorem host_graph_parity_fails :
    ((hostCanonical testRaw).headD []).length = 7 ∧
    ((graph_post_dets testRaw).headD []).length = 1 ∧
    hostCanonical testRaw ≠ graph_post_dets testRaw := by
  refine ⟨rfl, rfl, ?_⟩
  intro h
  have h7 : ((hostCanonical testRaw).headD []).length
      = ((graph_post_dets testRaw).headD []).length := by rw [h]
  rw [show ((hostCanonical testRaw).headD []).length = 7 from rfl,
    show ((graph_post_dets testRaw).headD []).length = 1 from rfl] at h7
  exact absurd h7 (by decide)

/-- Detection candidate: an axis-aligned box, a score and a class id
(the triples `boxes`, `scores`, `cids` of `self_valid.py`). -/
structure Cand where
  x1 : ℚ
  y1 : ℚ
  x2 : ℚ
  y2 : ℚ
  score : ℚ
  cid : ℤ
deriving DecidableEq

/-- Area of a box, degenerate (zero-or-negative extent) boxes count 0. -/
def area (a : Cand) : ℚ := max 0 (a.x2 - a.x1) * max 0 (a.y2 - a.y1)

/-- Overlap area of two axis-aligned boxes. -/
def interArea (a b : Cand) : ℚ :=
  max 0 (min a.x2 b.x2 - max a.x1 b.x1) * max 0 (min a.y2 b.y2 - max a.y1 b.y1)

/-- Modelled from the spec: intersection-over-union of two axis-aligned
boxes; the NMS primitive (`cv2.dnn.NMSBoxes`) is external to the
repository.  Degenerate boxes get IoU 0 unless exactly coincident. -/
def iou (a b : Cand) : ℚ :=
  let i := interArea a b
  let u := area a + area b - i
  if u ≤ 0 then
    (if a.x1 = b.x1 ∧ a.y1 = b.y1 ∧ a.x2 = b.x2 ∧ a.y2 = b.y2 then 1 else 0)
  else i / u

/-- Modelled from the spec: pick the highest-scoring candidate among `b`
and `t` (earliest occurrence wins on ties). -/
def selBest (b : Cand) : List Cand → Cand
  | [] => b
  | c :: t => selBest (if b.score < c.score then c else b) t

/-- Modelled from the spec: fuelled greedy NMS — repeatedly take the
highest-scoring remaining box, emit it, and remove it together with all
remaining boxes whose IoU against it reaches `th`. -/
def nmsFuel (th : ℚ) : ℕ → List Cand → List Cand
  | 0, _ => []
  | _ + 1, [] => []
  | n + 1, b :: t =>
    let best := selBest b t
    best :: nmsFuel th n (((b :: t).erase best).filter fun c => decide (iou best c < th))

/-- Modelled from the spec: greedy NMS, run with enough fuel to consume
the whole candidate list. -/
def nmsGreedy (th : ℚ) (l : List Cand) : List Cand := nmsFuel th l.length l

theorem nmsFuel_succ_cons (th : ℚ) (n : ℕ) (b : Cand) (t : List Cand) :
    nmsFuel th (n + 1) (b :: t) =
      selBest b t ::
        nmsFuel th n
          (((b :: t).erase (selBest b t)).filter fun c =>
            decide (iou (selBest b t) c < th)) := rfl

theorem selBest_mem (b : Cand) (t : List Cand) : selBest b t ∈ b :: t := by
  induction t generalizing b with
  | nil => simp [selBest]
  | cons c t ih =>
    rw [selBest]
    have h := ih (if b.score < c.score then c else b)
    rcases List.mem_cons.mp h with h1 | h1
    · rw [h1]; split
      · exact List.mem_cons_of_mem _ (List.mem_cons_self _ _)
      · exact List.mem_cons_self _ _
    · exact List.mem_cons_of_mem _ (List.mem_cons_of_mem _ h1)

theorem selBest_score_le (b : Cand) (t : List Cand) :
    ∀ x ∈ b :: t, x.score ≤ (selBest b t).score := by
  induction t generalizing b with
  | nil =>
    intro x hx
    rw [List.mem_singleton] at hx
    subst hx
    exact le_refl _
  | cons c t ih =>
    intro x hx
    rw [selBest]
    have hmem := ih (if b.score < c.score then c else b)
    have hb : b.score ≤ (selBest (if b.score < c.score then c else b) t).score := by
      refine le_trans ?_ (hmem _ (List.mem_cons_self _ _))
      split
      · exact le_of_lt (by assumption)
      · exact le_refl _
    have hc : c.score ≤ (selBest (if b.score < c.score then c else b) t).score := by
      refine le_trans ?_ (hmem _ (List.mem_cons_self _ _))
      split
      · exact le_refl _
      · exact le_of_not_lt (by assumption)
    rcases List.mem_cons.mp hx with rfl | hx2
    · exact hb
    · rcases List.mem_cons.mp hx2 with rfl | hx3
      · exact hc
      · exact hmem x (List.mem_cons_of_mem _ hx3)

theorem selBest_eq_head (b : Cand) (t : List Cand)
    (h : ∀ x ∈ t, x.score ≤ b.score) : selBest b t = b := by
  induction t generalizing b with
  | nil => rfl
  | cons c t ih =>
    rw [selBest]
    rw [if_neg (not_lt.mpr (h c (List.mem_cons_self _ _)))]
    exact ih b fun x hx => h x (List.mem_cons_of_mem _ hx)

theorem nmsFuel_subset (th : ℚ) :
    ∀ (n : ℕ) (l : List Cand), ∀ x ∈ nmsFuel th n l, x ∈ l := by
  intro n
  induction n with
  | zero => intro l x hx; simp [nmsFuel] at hx
  | succ n ih =>
    intro l x hx
    cases l with
    | nil => simp [nmsFuel] at hx
    | cons b t =>
      rw [nmsFuel_succ_cons] at hx
      rcases List.mem_cons.mp hx with rfl | hx2
      · exact selBest_mem b t
      · exact List.mem_of_mem_erase (List.mem_of_mem_filter (ih _ x hx2))

theorem nms_next_len (th : ℚ) (b : Cand) (t : List Cand) :
    (((b :: t).erase (selBest b t)).filter fun c =>
      decide (iou (selBest b t) c < th)).length ≤ t.length := by
  have h2 : ((b :: t).erase (selBest b t)).length = t.length := by
    rw [List.length_erase_of_mem (selBest_mem b t)]
    simp
  exact le_trans (List.length_filter_le _ _) (le_of_eq h2)

theorem nmsFuel_length_le (th : ℚ) :
    ∀ (n : ℕ) (l : List Cand), (nmsFuel th n l).length ≤ l.length := by
  intro n
  induction n with
  | zero => intro l; simp [nmsFuel]
  | succ n ih =>
    intro l
    cases l with
    | nil => simp [nmsFuel]
    | cons b t =>
      rw [nmsFuel_succ_cons]
      simp only [List.length_cons]
      exact Nat.succ_le_succ (le_trans (ih _) (nms_next_len th b t))

theorem nmsFuel_congr (th : ℚ) :
    ∀ (n m : ℕ) (l : List Cand), l.length ≤ n → l.length ≤ m →
      nmsFuel th n l = nmsFuel th m l := by
  intro n
  induction n with
  | zero =>
    intro m l hn _
    have hl : l = [] := List.eq_nil_of_length_eq_zero (Nat.le_zero.mp hn)
    subst hl
    cases m <;> rfl
  | succ n ih =>
    intro m l hn hm
    cases l with
    | nil => cases m <;> rfl
    | cons b t =>
      cases m with
      | zero => exact absurd hm (by simp)
      | succ m =>
        rw [nmsFuel_succ_cons, nmsFuel_succ_cons]
        congr 1
        exact ih m _
          (le_trans (nms_next_len th b t) (Nat.succ_le_succ_iff.mp hn))
          (le_trans (nms_next_len th b t) (Nat.succ_le_succ_iff.mp hm))

theorem nmsFuel_idem (th : ℚ) :
    ∀ (n : ℕ) (l : List Cand), l.length ≤ n →
      nmsFuel th n (nmsFuel th n l) = nmsFuel th n l := by
  intro n
  induction n with
  | zero => intro l _; rfl
  | succ n ih =>
    intro l hl
    cases l with
    | nil => rfl
    | cons b t =>
      rw [nmsFuel_succ_cons]
      set M : List Cand := ((b :: t).erase (selBest b t)).filter fun c =>
        decide (iou (selBest b t) c < th) with hM
      have hscore : ∀ x ∈ nmsFuel th n M, x.score ≤ (selBest b t).score := by
        intro x hx
        have hxM : x ∈ M := nmsFuel_subset th n M x hx
        rw [hM] at hxM
        exact selBest_score_le b t x
          (List.mem_of_mem_erase (List.mem_of_mem_filter hxM))
      have hsb : selBest (selBest b t) (nmsFuel th n M) = selBest b t :=
        selBest_eq_head _ _ hscore
      rw [nmsFuel_succ_cons, hsb, List.erase_cons_head]
      have hfil : (nmsFuel th n M).filter
          (fun c => decide (iou (selBest b t) c < th)) = nmsFuel th n M := by
        refine List.filter_eq_self.mpr fun x hx => ?_
        have hxM : x ∈ M := nmsFuel_subset th n M x hx
        rw [hM] at hxM
        exact (List.mem_filter.mp hxM).2
      rw [hfil]
      congr 1
      have hMlen : M.length ≤ n := by
        rw [hM]
        exact le_trans (nms_next_len th b t) (Nat.succ_le_succ_iff.mp hl)
      exact ih M hMlen

/-- C5: greedy NMS is idempotent — applying NMS to the survivors of a
previous NMS run with the same IoU threshold returns exactly those
survivors, in the same order. -/
theorem nmsGreedy_idem (th : ℚ) (l : List Cand) :
    nmsGreedy th (nmsGreedy th l) = nmsGreedy th l := by
  unfold nmsGreedy
  rw [nmsFuel_congr th (nmsFuel th l.length l).length l.length
    (nmsFuel th l.length l) (le_refl _) (nmsFuel_length_le th _ l)]
  exact nmsFuel_idem th l.length l (le_refl _)

/-- One candidate row of the raw tensor after layout normalization
(`x1, y1, x2, y2, f4, f5, f6` in `self_valid.py` line 32). -/
structure Row7 where
  x1 : ℚ
  y1 : ℚ
  x2 : ℚ
  y2 : ℚ
  f4 : ℚ
  f5 : ℚ
  f6 : ℚ
deriving DecidableEq

/-- Fused confidence `conf = max(f4*f6, f4)` (`self_valid.py` lines 36-38). -/
def fusedScore (r : Row7) : ℚ := max (r.f4 * r.f6) r.f4

/-- Build the candidate for one raw row: box as-is, fused score, class id
`np.rint(f5)` (`self_valid.py` lines 33-38). -/
def mkCand (r : Row7) : Cand :=
  { x1 := r.x1, y1 := r.y1, x2 := r.x2, y2 := r.y2,
    score := fusedScore r, cid := roundHalfEven r.f5 }

/-- Score-descending order used by the top-K selection
(`np.argsort(-conf)` in `self_valid.py` line 43). -/
def scoreGE (a b : Cand) : Prop := b.score ≤ a.score

instance : DecidableRel scoreGE := fun a b => inferInstanceAs (Decidable (b.score ≤ a.score))

instance : IsTotal Cand scoreGE := ⟨fun a b => le_total b.score a.score⟩

instance : IsTrans Cand scoreGE := ⟨fun _ _ _ h1 h2 => le_trans h2 h1⟩

/-- Un-letterbox a candidate's box (`self_valid.py` lines 50-53); the
score and class id are untouched. -/
def unLetterbox (t : Letterbox) (c : Cand) : Cand :=
  { c with
    x1 := to_original_x t c.x1, x2 := to_original_x t c.x2,
    y1 := to_original_y t c.y1, y2 := to_original_y t c.y2 }

/-- The integer rect conversion `tuple(map(int, [x1, y1, x2-x1, y2-y1]))`
fed to NMS (`self_valid.py` line 62), expressed back in corner form. -/
def toRect (c : Cand) : Cand :=
  { x1 := (ratTrunc c.x1 : ℚ), y1 := (ratTrunc c.y1 : ℚ),
    x2 := ((ratTrunc c.x1 + ratTrunc (c.x2 - c.x1) : ℤ) : ℚ),
    y2 := ((ratTrunc c.y1 + ratTrunc (c.y2 - c.y1) : ℤ) : ℚ),
    score := c.score, cid := c.cid }

/-- The host-side decode pipeline of `self_valid.py` lines 32-63:
fuse scores and round class ids, pre-select the `topK` highest-scoring
candidates (`np.argpartition` raises when fewer than `topK` candidates
exist, modelled as `none`), un-letterbox, filter `score >= conf_thres`,
convert to integer rects, and run greedy NMS. -/
def decode (rows : List Row7) (lb : Letterbox) (conf_thres iou_thres : ℚ)
    (topK : ℕ) : Option (List Cand) :=
  if rows.length < topK then none
  else
    some (nmsGreedy iou_thres
      (((((List.insertionSort scoreGE (rows.map mkCand)).take topK).map
        (unLetterbox lb)).filter fun c => decide (conf_thres ≤ c.score)).map toRect))

/-- Number of detections of a decode outcome (0 for the failure case). -/
def detCount (o : Option (List Cand)) : ℕ := (o.getD []).length

theorem filter_score_map (f : Cand → Cand) (hf : ∀ x, (f x).score = x.score)
    (c : ℚ) (u : List Cand) :
    (u.filter fun x => decide (c ≤ x.score)).map f =
      (u.map f).filter fun x => decide (c ≤ x.score) := by
  induction u with
  | nil => rfl
  | cons a u ih =>
    simp only [List.filter_cons, List.map_cons, hf]
    by_cases hc : c ≤ a.score
    · simp [hc, ih]
    · simp [hc, ih]

theorem nmsFuel_filter_comm (th c : ℚ) :
    ∀ (n : ℕ) (l : List Cand), l.length ≤ n → l.Pairwise scoreGE →
      nmsFuel th n (l.filter fun x => decide (c ≤ x.score)) =
        (nmsFuel th n l).filter fun x => decide (c ≤ x.score) := by
  intro n
  induction n with
  | zero => intro l _ _; rfl
  | succ n ih =>
    intro l hl hp
    cases l with
    | nil => rfl
    | cons b t =>
      have hb : ∀ x ∈ t, x.score ≤ b.score := (List.pairwise_cons.mp hp).1
      have ht : t.Pairwise scoreGE := (List.pairwise_cons.mp hp).2
      have hsel : selBest b t = b := selBest_eq_head b t hb
      by_cases hcb : c ≤ b.score
      · rw [List.filter_cons_of_pos (by simpa using hcb)]
        have hselF : selBest b (t.filter fun x => decide (c ≤ x.score)) = b :=
          selBest_eq_head b _ fun x hx => hb x (List.mem_of_mem_filter hx)
        rw [nmsFuel_succ_cons, hselF, List.erase_cons_head]
        rw [nmsFuel_succ_cons, hsel, List.erase_cons_head]
        rw [List.filter_cons_of_pos (by simpa using hcb)]
        congr 1
        have hcomm : ((t.filter fun x => decide (c ≤ x.score)).filter fun x =>
              decide (iou b x < th)) =
            ((t.filter fun x => decide (iou b x < th)).filter fun x =>
              decide (c ≤ x.score)) := by
          simp only [List.filter_filter]
          exact List.filter_congr fun x _ => Bool.and_comm _ _
        rw [hcomm]
        rw [ih (t.filter fun x => decide (iou b x < th))
          (le_trans (List.length_filter_le _ _) (Nat.succ_le_succ_iff.mp hl))
          (ht.sublist (List.filter_sublist t))]
      · have hnone : ∀ x ∈ b :: t, ¬ (c ≤ x.score) := by
          intro x hx
          rcases List.mem_cons.mp hx with rfl | hx2
          · exact hcb
          · exact fun hcx => hcb (le_trans hcx (hb x hx2))
        have h1 : (b :: t).filter (fun x => decide (c ≤ x.score)) = [] :=
          List.filter_eq_nil_iff.mpr fun x hx => by simpa using hnone x hx
        have h2 : (nmsFuel th (n + 1) (b :: t)).filter
            (fun x => decide (c ≤ x.score)) = [] :=
          List.filter_eq_nil_iff.mpr fun x hx => by
            simpa using hnone x (nmsFuel_subset th (n + 1) (b :: t) x hx)
        rw [h1, h2]
        rfl

/-- C6: the number of detections returned by `decode` is antitone in the
confidence threshold — raising `conf_thres` never increases the number
of returned detections, for every tensor, letterbox transform, IoU
threshold and top-K cap. -/
theorem decode_conf_antitone (rows : List Row7) (lb : Letterbox)
    (it : ℚ) (topK : ℕ) (c1 c2 : ℚ) (h : c1 ≤ c2) :
    detCount (decode rows lb c2 it topK) ≤ detCount (decode rows lb c1 it topK) := by
  unfold decode
  by_cases hK : rows.length < topK
  · simp [hK, detCount]
  · rw [if_neg hK, if_neg hK]
    set Xpre := ((List.insertionSort scoreGE (rows.map mkCand)).take topK).map
      (unLetterbox lb) with hXpre
    set X := Xpre.map toRect with hX
    have hXs : X.Pairwise scoreGE := by
      rw [hX, hXpre]
      have h1 : (List.insertionSort scoreGE (rows.map mkCand)).Pairwise scoreGE :=
        List.sorted_insertionSort scoreGE (rows.map mkCand)
      have h2 : ((List.insertionSort scoreGE (rows.map mkCand)).take topK).Pairwise
          scoreGE := h1.sublist (List.take_sublist topK _)
      have h3 : (((List.insertionSort scoreGE (rows.map mkCand)).take topK).map
          (unLetterbox lb)).Pairwise scoreGE := List.pairwise_map.mpr h2
      exact List.pairwise_map.mpr h3
    have hcount : ∀ c : ℚ,
        (nmsGreedy it ((Xpre.filter fun x => decide (c ≤ x.score)).map toRect)).length
          = ((nmsFuel it X.length X).filter fun x => decide (c ≤ x.score)).length := by
      intro c
      rw [filter_score_map toRect (fun _ => rfl) c Xpre, ← hX]
      unfold nmsGreedy
      rw [nmsFuel_congr it (X.filter fun x => decide (c ≤ x.score)).length X.length
        (X.filter fun x => decide (c ≤ x.score)) (le_refl _) (List.length_filter_le _ _)]
      rw [nmsFuel_filter_comm it c X.length X (le_refl _) hXs]
    simp only [detCount, Option.getD_some]
    rw [hcount c1, hcount c2]
    exact (List.monotone_filter_right (nmsFuel it X.length X)
      fun a ha => by
        simp only [decide_eq_true_eq] at ha ⊢
        exact le_trans h ha).length_le

/-- Witness for C6 with one candidate row, `topK = 1` and thresholds
`0 ≤ 1`. -/
def rowEx : Row7 := { x1 := 0, y1 := 0, x2 := 10, y2 := 10, f4 := 1/10, f5 := 0, f6 := 1 }

theorem decode_conf_antitone_witness :
    detCount (decode [rowEx] lbEx 1 (9/20) 1) ≤
      detCount (decode [rowEx] lbEx 0 (9/20) 1) :=
  decode_conf_antitone [rowEx] lbEx (9/20) 1 0 1 (by norm_num)

/-- C7 counterexample: a tensor with a single candidate (fewer than the
`top_k = 200` cap) whose fused score is below the threshold; `decode`
fails (the `np.argpartition` out-of-bounds error, modelled as `none`)
instead of returning the empty sequence. -/
theorem decode_empty_counterexample :
    fusedScore rowEx < 1/4 ∧
      decode [rowEx] lbEx (1/4) (9/20) 200 ≠ some [] := by
  constructor
  · norm_num [fusedScore, rowEx, max_self]
  · simp [decode]

/-- C7 as amended: when the tensor has at least `topK` candidates and no
candidate's fused score reaches `conf_thres`, `decode` returns the empty
sequence as an ordinary value (`some []`), not the failure value. -/
theorem decode_empty_when_all_below (rows : List Row7) (lb : Letterbox)
    (c it : ℚ) (topK : ℕ) (hK : ¬ rows.length < topK)
    (hall : ∀ r ∈ rows, fusedScore r < c) :
    decode rows lb c it topK = some [] := by
  unfold decode
  rw [if_neg hK]
  have hkept : (((List.insertionSort scoreGE (rows.map mkCand)).take topK).map
      (unLetterbox lb)).filter (fun x => decide (c ≤ x.score)) = [] := by
    refine List.filter_eq_nil_iff.mpr fun x hx => ?_
    rcases List.mem_map.mp hx with ⟨y, hy, rfl⟩
    have hy2 : y ∈ List.insertionSort scoreGE (rows.map mkCand) :=
      List.mem_of_mem_take hy
    rw [List.mem_insertionSort] at hy2
    rcases List.mem_map.mp hy2 with ⟨r, hr, rfl⟩
    simp only [decide_eq_true_eq]
    exact not_le.mpr (hall r hr)
  rw [hkept]
  rfl

/-- Witness for the amended C7: one low-scoring row with `topK = 1`. -/
theorem decode_empty_when_all_below_witness :
    decode [rowEx] lbEx (1/4) (9/20) 1 = some [] :=
  decode_empty_when_all_below [rowEx] lbEx (1/4) (9/20) 1 (by decide)
    (fun r hr => by
      rw [List.mem_singleton] at hr
      subst hr
      norm_num [fusedScore, rowEx, max_self])

/-- C9: with the code's `top_k = 200` cap, any tensor with fewer than
200 candidates makes the `np.argpartition(-conf, K-1)` selection raise
(modelled as the `none` outcome), so `decode` succeeds only under the
precondition `N >= top_k`. -/
theorem decode_needs_topK_rows (rows : List Row7) (lb : Letterbox)
    (c it : ℚ) (h : rows.length < 200) :
    decode rows lb c it 200 = none := by
  simp [decode, h]

/-- Witness for C9 on the empty tensor. -/
theorem decode_needs_topK_rows_witness : decode [] lbEx 0 0 200 = none :=
  decode_needs_topK_rows [] lbEx 0 0 (by decide)

/-- Tensor-shape dimension in a value-info entry: a fixed size or a
symbolic (dynamic) name such as `"unk"`. -/
inductive DimP where
  | fixed : ℤ → DimP
  | sym : String → DimP
deriving DecidableEq

/-- A `ValueInfoProto`: name, element type tag (FLOAT = 1, INT64 = 7)
and shape. -/
structure ValueInfoP where
  name : String
  dtype : ℕ
  dims : List DimP
deriving DecidableEq

/-- An initializer tensor (`TensorProto`): name, element type tag, dims
and integer payload (all initializers created here are INT64). -/
structure TensorP where
  name : String
  dtype : ℕ
  dims : List ℕ
  vals : List ℤ
deriving DecidableEq

/-- A graph node: op type, input names, output names, and named
integer-list attributes (`perm`, `axis`). -/
structure NodeP where
  op : String
  input : List String
  output : List String
  ints : List (String × List ℤ)
deriving DecidableEq

/-- The mutable graph object: node, initializer, value-info and output
lists, as manipulated by `inject_postprocess.py`. -/
structure GraphP where
  node : List NodeP
  initializer : List TensorP
  value_info : List ValueInfoP
  output : List ValueInfoP
deriving DecidableEq

/-- The four INT64 initializers appended by `make_slice_col` for one
column: `starts=[0,start,0]`, `ends=[1,stop,int64Max]`, `axes=[0,1,2]`,
`steps=[1,1,1]`. -/
def slice_col_inits (start stop : ℤ) (out_name : String) : List TensorP :=
  [{ name := out_name ++ "_starts", dtype := 7, dims := [3], vals := [0, start, 0] },
    { name := out_name ++ "_ends", dtype := 7, dims := [3],
      vals := [1, stop, 9223372036854775807] },
    { name := out_name ++ "_axes", dtype := 7, dims := [3], vals := [0, 1, 2] },
    { name := out_name ++ "_steps", dtype := 7, dims := [3], vals := [1, 1, 1] }]

/-- The `Slice` node returned by `make_slice_col`. -/
def slice_col_node (src out_name : String) : NodeP :=
  { op := "Slice",
    input := [src, out_name ++ "_starts", out_name ++ "_ends",
      out_name ++ "_axes", out_name ++ "_steps"],
    output := [out_name], ints := [] }

/-- The twelve nodes appended by `main`: Transpose, seven slices,
Mul, Max, Round, Concat. -/
def augmentNodes (raw_new : String) : List NodeP :=
  [{ op := "Transpose", input := [raw_new], output := ["n7"],
      ints := [("perm", [0, 2, 1])] },
    slice_col_node "n7" "c_x1",
    slice_col_node "n7" "c_y1",
    slice_col_node "n7" "c_x2",
    slice_col_node "n7" "c_y2",
    slice_col_node "n7" "c_f4",
    slice_col_node "n7" "c_f5",
    slice_col_node "n7" "c_f6",
    { op := "Mul", input := ["c_f4", "c_f6"], output := ["scoreA"], ints := [] },
    { op := "Max", input := ["scoreA", "c_f4"], output := ["score"], ints := [] },
    { op := "Round", input := ["c_f5"], output := ["cls_id"], ints := [] },
    { op := "Concat",
      input := ["c_x1", "c_y1", "c_x2", "c_y2", "score", "cls_id"],
      output := ["post_dets"], ints := [("axis", [2])] }]

/-- The 28 slice initializers appended by the seven `make_slice_col`
calls, in call order. -/
def augmentInits : List TensorP :=
  slice_col_inits 0 1 "c_x1" ++ slice_col_inits 1 2 "c_y1" ++
    slice_col_inits 2 3 "c_x2" ++ slice_col_inits 3 4 "c_y2" ++
    slice_col_inits 4 5 "c_f4" ++ slice_col_inits 5 6 "c_f5" ++
    slice_col_inits 6 7 "c_f6"

/-- The intermediate value-info entry `[1, 7, "unk"]` declared for the
renamed raw output. -/
def rawVI (raw_new : String) : ValueInfoP :=
  { name := raw_new, dtype := 1, dims := [.fixed 1, .fixed 7, .sym "unk"] }

/-- The new output value-info `post_dets : [1, "unk", 6]`. -/
def postDetsVI : ValueInfoP :=
  { name := "post_dets", dtype := 1, dims := [.fixed 1, .sym "unk", .fixed 6] }

/-- Rename a node's outputs: every output entry equal to the captured
raw output name becomes that name suffixed `"_raw"`; inputs, op type and
attributes are untouched (the loop in `inject_postprocess.py` lines
30-34). -/
def renameOut (rawOut : String) (n : NodeP) : NodeP :=
  { n with output := n.output.map fun o => if o = rawOut then rawOut ++ "_raw" else o }

/-- The body of `main` in `inject_postprocess.py` given the captured
name of the first output: pop the last output binding, rename producer
outputs, append the value-info entry, the 28 initializers, the 12 new
nodes and the new output binding. -/
def augmentCore (g : GraphP) (rawOut : String) : GraphP :=
  { node := g.node.map (renameOut rawOut) ++ augmentNodes (rawOut ++ "_raw"),
    initializer := g.initializer ++ augmentInits,
    value_info := g.value_info ++ [rawVI (rawOut ++ "_raw")],
    output := g.output.dropLast ++ [postDetsVI] }

/-- Entry point `main` of `inject_postprocess.py`: captures `g.output[0].name`
(failing on a graph with no output, modelled as `none`) and rewrites the
graph. -/
def augment (g : GraphP) : Option GraphP :=
  match g.output with
  | [] => none
  | v :: _ => some (augmentCore g v.name)

/-- C10: `augment` only appends — on a single-output graph, every
pre-existing node keeps its op type, inputs and attributes, with output
entries renamed only when equal to the original output name (suffixed
`"_raw"`); the pre-existing initializers and value-info entries survive
unchanged as prefixes; and the original output binding is replaced by
the single `post_dets` binding. -/
theorem augment_frame (g : GraphP) (v : ValueInfoP) (h : g.output = [v]) :
    augment g = some (augmentCore g v.name) ∧
    ((augmentCore g v.name).node.take g.node.length).map NodeP.op =
      g.node.map NodeP.op ∧
    ((augmentCore g v.name).node.take g.node.length).map NodeP.input =
      g.node.map NodeP.input ∧
    ((augmentCore g v.name).node.take g.node.length).map NodeP.ints =
      g.node.map NodeP.ints ∧
    ((augmentCore g v.name).node.take g.node.length).map NodeP.output =
      g.node.map (fun n => n.output.map fun o =>
        if o = v.name then v.name ++ "_raw" else o) ∧
    (augmentCore g v.name).initializer.take g.initializer.length =
      g.initializer ∧
    (augmentCore g v.name).value_info.take g.value_info.length =
      g.value_info ∧
    (augmentCore g v.name).output = [postDetsVI] := by
  have htake : ((augmentCore g v.name).node.take g.node.length) =
      g.node.map (renameOut v.name) :=
    List.take_left' (List.length_map g.node (renameOut v.name))
  refine ⟨?_, ?_, ?_, ?_, ?_, ?_, ?_, ?_⟩
  · unfold augment
    rw [h]
  · rw [htake, List.map_map]
    rfl
  · rw [htake, List.map_map]
    rfl
  · rw [htake, List.map_map]
    rfl
  · rw [htake, List.map_map]
    rfl
  · exact List.take_left' rfl
  · exact List.take_left' rfl
  · show g.output.dropLast ++ [postDetsVI] = [postDetsVI]
    rw [h]
    rfl

/-- Concrete one-node, one-output graph for the C10 witness. -/
def vEx : ValueInfoP := { name := "out", dtype := 1, dims := [.fixed 1, .fixed 7, .sym "unk"] }

/-- Concrete graph: one Conv node producing `out`, one initializer. -/
def gEx : GraphP :=
  { node := [{ op := "Conv", input := ["img", "w"], output := ["out"], ints := [] }],
    initializer := [{ name := "w", dtype := 1, dims := [1], vals := [3] }],
    value_info := [],
    output := [vEx] }

/-- Witness for C10 at the concrete graph `gEx`. -/
theorem augment_frame_witness :
    augment gEx = some (augmentCore gEx vEx.name) ∧
    ((augmentCore gEx vEx.name).node.take gEx.node.length).map NodeP.op =
      gEx.node.map NodeP.op ∧
    ((augmentCore gEx vEx.name).node.take gEx.node.length).map NodeP.input =
      gEx.node.map NodeP.input ∧
    ((augmentCore gEx vEx.name).node.take gEx.node.length).map NodeP.ints =
      gEx.node.map NodeP.ints ∧
    ((augmentCore gEx vEx.name).node.take gEx.node.length).map NodeP.output =
      gEx.node.map (fun n => n.output.map fun o =>
        if o = vEx.name then vEx.name ++ "_raw" else o) ∧
    (augmentCore gEx vEx.name).initializer.take gEx.initializer.length =
      gEx.initializer ∧
    (augmentCore gEx vEx.name).value_info.take gEx.value_info.length =
      gEx.value_info ∧
    (augmentCore gEx vEx.name).output = [postDetsVI] :=
  augment_frame gEx vEx rfl

end Detect
